import Mathlib

/-!
Shallow embedding of the procedural building generator of
src/game/src/debug/building_procgen.rs (the abstreet repository), together
with proofs of the specified properties of its pipeline:
sidewalk selection, candidate placement, self-overlap pruning and basemap
filtering.

Coordinates are rational numbers.  The external geom, aabb_quadtree and rand
crates are not part of the source tree; each of their operations is modelled
from the specification and marked as such in its doc comment.
-/

/-- A 2D point, as geom::Pt2D. -/
abbrev Pt : Type := ℚ × ℚ

/-- Modelled from the spec: geom::Angle, the tangent direction at a point of a
lane centerline, kept as a direction vector (c, s); a well-formed angle has
unit norm. -/
structure Angle where
  c : ℚ
  s : ℚ

/-- A polygon, as geom::Polygon: the ordered ring of its points. -/
abbrev Polygon : Type := List Pt

/-- Modelled from the spec: geom::Bounds, an axis-aligned bounding box. -/
structure Bounds where
  minX : ℚ
  maxX : ℚ
  minY : ℚ
  maxY : ℚ

/-- Modelled from the spec: the bounding-box overlap test used by the spatial
index and the basemap query (closed-interval overlap on both axes). -/
def boundsIntersect (a b : Bounds) : Bool :=
  decide (a.minX ≤ b.maxX) && decide (b.minX ≤ a.maxX) &&
  decide (a.minY ≤ b.maxY) && decide (b.minY ≤ a.maxY)

/-- Modelled from the spec: geom::Bounds::add_buffer, growing the box by a
margin on every side (source line 151: search.add_buffer(1.0 meters)). -/
def addBuffer (r : ℚ) (b : Bounds) : Bounds :=
  ⟨b.minX - r, b.maxX + r, b.minY - r, b.maxY + r⟩

/-- Modelled from the spec: geom::Polygon::get_bounds, the bounding box of the
polygon's points. -/
def polyBounds : Polygon → Bounds
  | [] => ⟨0, 0, 0, 0⟩
  | q :: qs =>
    qs.foldl (fun b v => ⟨min b.minX v.1, max b.maxX v.1, min b.minY v.2, max b.maxY v.2⟩)
      ⟨q.1, q.1, q.2, q.2⟩

/-- Modelled from the spec: rotating a direction by -90 degrees
(source line 130: angle.rotate_degs(-90.0)). -/
def Angle.rotateNeg90 (a : Angle) : Angle := ⟨a.s, -a.c⟩

/-- Modelled from the spec: geom::Pt2D::project_away, moving a point a given
distance in a given direction. -/
def projectAway (p : Pt) (dist : ℚ) (a : Angle) : Pt :=
  (p.1 + dist * a.c, p.2 + dist * a.s)

/-- Modelled from the spec: geom::Polygon::rectangle, an axis-aligned
rectangle with corners (0, 0) and (width, height). -/
def Polygon.rectangle (width height : ℚ) : Polygon :=
  [(0, 0), (width, 0), (width, height), (0, height)]

/-- Modelled from the spec: the center of a polygon, the average of its
points. -/
def Polygon.center (p : Polygon) : Pt :=
  (p.foldl (fun t q => t + q.1) 0 / p.length, p.foldl (fun t q => t + q.2) 0 / p.length)

/-- Modelled from the spec: geom::Polygon::rotate, rotating the polygon about
its own center ("rotate it to align with the tangent angle, and translate it
so its center matches the computed center point"). -/
def Polygon.rotate (p : Polygon) (a : Angle) : Polygon :=
  let ctr := Polygon.center p
  p.map fun q =>
    (ctr.1 + a.c * (q.1 - ctr.1) - a.s * (q.2 - ctr.2),
     ctr.2 + a.s * (q.1 - ctr.1) + a.c * (q.2 - ctr.2))

/-- Modelled from the spec: geom::Polygon::translate. -/
def Polygon.translate (p : Polygon) (dx dy : ℚ) : Polygon :=
  p.map fun q => (q.1 + dx, q.2 + dy)

/-- Modelled from the spec: the seeded pseudo-random source (rand_xorshift's
XorShiftRng; spec section 6: "a seeded pseudo-random source supporting uniform
sampling over a numeric range"), kept abstract as a deterministic stream of
unit-interval draws together with a cursor into the stream. -/
structure Rng where
  stream : Nat → ℚ
  idx : Nat

/-- Modelled from the spec: rng.gen_range(low..high), one uniform draw from
the interval [low, high): the next unit-interval draw, rescaled. -/
def Rng.genRange (r : Rng) (low high : ℚ) : ℚ × Rng :=
  (low + r.stream r.idx * (high - low), ⟨r.stream, r.idx + 1⟩)

/-- A well-formed random stream only produces draws inside [0, 1). -/
def streamOk (r : Rng) : Prop := ∀ n, 0 ≤ r.stream n ∧ r.stream n < 1

/-- Source lines 188-191 (rand_dist): asserts high > low — the failed assert
is modelled as the None result — and samples a distance from [low, high). -/
def rand_dist (rng : Rng) (low high : ℚ) : Option (ℚ × Rng) :=
  if low < high then some (rng.genRange low high) else none

/-- A pre-existing building; only the sidewalk lane it fronts is consulted
(source line 102: b.sidewalk()). -/
structure BuildingData where
  sidewalk : Nat

/-- A road of the network; only its OSM classification tags are consulted. -/
structure RoadData where
  tags : List (String × String)

/-- Modelled from the spec: abstutil::Tags::is, whether the tag key maps to
exactly the given value. -/
def tagIs (tags : List (String × String)) (k v : String) : Bool :=
  tags.lookup k == some v

/-- A lane of the road network.  The centerline is kept abstract as a length
plus a sampling function; modelled from the spec (section 6):
"length-parameterized centerline (point + tangent angle at arbitrary
distance)". -/
structure LaneData where
  id : Nat
  parent : Nat
  isSidewalk : Bool
  length : ℚ
  sample : ℚ → Pt × Angle

/-- Modelled from the spec: a basemap renderable, exposing a bounding box and
a 2D point-containment test. -/
structure Obstacle where
  bbox : Bounds
  containsPt : Pt → Bool

/-- The read-only queryable map surface consumed by the generator. -/
structure MapData where
  lanes : List LaneData
  getRoad : Nat → RoadData
  buildings : List BuildingData
  obstacles : List Obstacle

/-- Modelled from the spec: HashSet::insert on a set of lane ids. -/
def insertHash (s : List Nat) (x : Nat) : List Nat :=
  if s.contains x then s else s ++ [x]

/-- Source lines 100-103: the set of lanes already fronted by some existing
building. -/
def lanesWithBuildings (m : MapData) : List Nat :=
  m.buildings.foldl (fun s b => insertHash s b.sidewalk) []

/-- Source lines 106-114: the ids of all sidewalk lanes of residential roads
that carry no existing building, in lane iteration order. -/
def emptySidewalks (m : MapData) : List Nat :=
  m.lanes.foldl
    (fun acc l =>
      if l.isSidewalk && !((lanesWithBuildings m).contains l.id) &&
          tagIs (m.getRoad l.parent).tags "highway" "residential" then
        acc ++ [l.id]
      else acc) []

/-- Source lines 127-135: one candidate house.  A width by height rectangle is
rotated to the lane tangent and its center is set back from the sidewalk point
by 10 + height/2, perpendicular to the tangent, so that the front edge always
sits 10 meters from the sidewalk. -/
def mkHouse (sidewalk_pt : Pt) (angle : Angle) (width height : ℚ) : Polygon :=
  let setback := 10 + height / 2
  let center := projectAway sidewalk_pt setback angle.rotateNeg90
  Polygon.translate (Polygon.rotate (Polygon.rectangle width height) angle)
    (center.1 - width / 2) (center.2 - height / 2)

/-- Source lines 121-139: the per-lane while loop, walking the centerline and
emitting candidate rectangles, advancing by max(width, height) plus a random
gap after each emission.  The fuel argument bounds the number of iterations;
a None result is an aborted run (fuel exhausted, or a failed rand_dist
assert). -/
def placeHouses (fuel : Nat) (lane : LaneData) (dist_along : ℚ) (rng : Rng)
    (acc : List Polygon) : Option (List Polygon × Rng) :=
  if dist_along < lane.length then
    match fuel with
    | 0 => none
    | fuel' + 1 =>
      let pa := lane.sample dist_along
      let wr := rng.genRange 6 14
      let hr := wr.2.genRange 6 14
      let house := mkHouse pa.1 pa.2 wr.1 hr.1
      match rand_dist hr.2 2 4 with
      | none => none
      | some gr =>
        placeHouses fuel' lane (dist_along + max wr.1 hr.1 + gr.1) gr.2 (acc ++ [house])
  else some (acc, rng)

/-- Source line 120: map.get_l, lane lookup by id. -/
def getLane (m : MapData) (i : Nat) : LaneData :=
  (m.lanes.find? (fun l => l.id == i)).getD
    { id := 0, parent := 0, isSidewalk := false, length := 0, sample := fun _ => ((0, 0), ⟨1, 0⟩) }

/-- Source lines 118-140: the placement loop over all selected sidewalks,
threading the single rng through every lane and pooling all candidates in
generation order. -/
def placeAll (fuel : Nat) (m : MapData) (ls : List Nat) (rng : Rng)
    (acc : List Polygon) : Option (List Polygon × Rng) :=
  match ls with
  | [] => some (acc, rng)
  | l :: rest =>
    match rand_dist rng 1 5 with
    | none => none
    | some dr =>
      match placeHouses fuel (getLane m l) dr.1 dr.2 acc with
      | none => none
      | some hr => placeAll fuel m rest hr.2 hr.1

/-- Source lines 152-155: the inner query loop of the pruning pass: test the
candidate against each hit returned by the quadtree query, looking the hit's
polygon up by its stored index.  A None result is the out-of-bounds panic of
the lookup non_overlapping[*idx]. -/
def checkHits (inter : Polygon → Polygon → Bool) (acc : List Polygon) (poly : Polygon) :
    List (Nat × Bounds) → Option Bool
  | [] => some false
  | e :: rest =>
    match acc[e.1]? with
    | none => none
    | some q => if inter poly q then some true else checkHits inter acc poly rest

/-- Source lines 145-159: the self-overlap pruning loop.  The quadtree is
modelled from the spec as the list of its (index, bounding box) entries,
queried by bounding-box intersection against the buffered search box; the
exact polygon-intersection test of the geom crate is the parameter inter. -/
def pruneGo (inter : Polygon → Polygon → Bool) :
    List Polygon → List Polygon → List (Nat × Bounds) → Option (List Polygon)
  | [], acc, _ => some acc
  | poly :: rest, acc, qt =>
    let search := addBuffer 1 (polyBounds poly)
    match checkHits inter acc poly (qt.filter fun e => boundsIntersect e.2 search) with
    | none => none
    | some true => pruneGo inter rest acc qt
    | some false =>
      pruneGo inter rest (acc ++ [poly]) (qt ++ [(acc.length, polyBounds poly)])

/-- Source lines 145-159: prune candidates that hit an earlier accepted
candidate, starting from an empty accepted sequence and an empty quadtree. -/
def pruneOverlaps (inter : Polygon → Polygon → Bool) (houses : List Polygon) :
    Option (List Polygon) :=
  pruneGo inter houses [] []

/-- Modelled from the spec: the basemap query, returning every renderable
whose bounding box intersects the given box (source line 173:
draw_map.get_renderables_back_to_front(poly.get_bounds(), map)). -/
def getRenderables (obstacles : List Obstacle) (b : Bounds) : List Obstacle :=
  obstacles.filter fun o => boundsIntersect o.bbox b

/-- Source lines 163-185: prune candidates that hit the basemap: a candidate
survives iff no queried renderable contains any point of the candidate. -/
def basemapFilter (obstacles : List Obstacle) (polys : List Polygon) : List Polygon :=
  polys.filter fun poly =>
    (getRenderables obstacles (polyBounds poly)).all fun r =>
      !(poly.any fun pt => r.containsPt pt)

/-- Source lines 92-186: the whole pipeline: select empty residential
sidewalks, place candidates, prune self-overlaps, prune basemap overlaps. -/
def generate (inter : Polygon → Polygon → Bool) (m : MapData) (rng : Rng)
    (fuel : Nat) : Option (List Polygon) :=
  match placeAll fuel m (emptySidewalks m) rng [] with
  | none => none
  | some hr =>
    match pruneOverlaps inter hr.1 with
    | none => none
    | some pruned => some (basemapFilter m.obstacles pruned)

/-- Follows the spec's words (section 4.3 contract): keep each candidate, in
generation order, exactly when it overlaps no previously kept candidate. -/
def specPruneGo (inter : Polygon → Polygon → Bool) :
    List Polygon → List Polygon → List Polygon
  | [], acc => acc
  | p :: rest, acc =>
    if acc.any (fun q => inter p q) then specPruneGo inter rest acc
    else specPruneGo inter rest (acc ++ [p])

/-- A point strictly inside a convex counter-clockwise polygon: strictly to
the left of every directed edge.  Used to exhibit two candidate polygons with
a common interior point. -/
def strictlyInside (p : Polygon) (q : Pt) : Bool :=
  decide (3 ≤ p.length) &&
  (List.range p.length).all fun i =>
    let v := p.getD i (0, 0)
    let w := p.getD ((i + 1) % p.length) (0, 0)
    decide (0 < (w.1 - v.1) * (q.2 - v.2) - (w.2 - v.2) * (q.1 - v.1))

/-- The bounding-box overlap test is symmetric. -/
theorem boundsIntersect_comm (a b : Bounds) : boundsIntersect a b = boundsIntersect b a := by
  simp only [boundsIntersect]
  by_cases h1 : a.minX ≤ b.maxX <;> by_cases h2 : b.minX ≤ a.maxX <;>
    by_cases h3 : a.minY ≤ b.maxY <;> by_cases h4 : b.minY ≤ a.maxY <;>
    simp [h1, h2, h3, h4]

/-- Growing one side of an overlapping pair by a nonnegative buffer keeps the
overlap. -/
theorem boundsIntersect_addBuffer (r : ℚ) (a b : Bounds) (hr : 0 ≤ r)
    (h : boundsIntersect a b = true) : boundsIntersect a (addBuffer r b) = true := by
  simp only [boundsIntersect, addBuffer, Bool.and_eq_true, decide_eq_true_eq] at h ⊢
  obtain ⟨⟨⟨h1, h2⟩, h3⟩, h4⟩ := h
  refine ⟨⟨⟨by linarith, by linarith⟩, by linarith⟩, by linarith⟩

/-- When every queried index is in bounds, the inner query loop never panics
and reports whether some hit's polygon passes the intersection test. -/
theorem checkHits_eq_any (inter : Polygon → Polygon → Bool) (acc : List Polygon)
    (poly : Polygon) (hits : List (Nat × Bounds))
    (hb : ∀ e ∈ hits, e.1 < acc.length) :
    checkHits inter acc poly hits =
      some (hits.any fun e => inter poly (acc.getD e.1 [])) := by
  induction hits with
  | nil => simp [checkHits]
  | cons e rest ih =>
    have he : e.1 < acc.length := hb e (by simp)
    have hrest : ∀ x ∈ rest, x.1 < acc.length := fun x hx => hb x (by simp [hx])
    have hgd : acc.getD e.1 [] = acc[e.1] := by
      simp [List.getD_eq_getElem?_getD, List.getElem?_eq_getElem he]
    simp only [checkHits, List.getElem?_eq_getElem he, List.any_cons, hgd]
    by_cases hi : inter poly acc[e.1]
    · simp [hi]
    · simp [hi, ih hrest]

/-- The quadtree invariant maintained by the pruning loop: it stores exactly
the indices of the already accepted polygons, each with that polygon's
bounding box. -/
def qtInv (acc : List Polygon) (qt : List (Nat × Bounds)) : Prop :=
  ∀ e : Nat × Bounds, e ∈ qt ↔ e.1 < acc.length ∧ e.2 = polyBounds (acc.getD e.1 [])

/-- As long as every quadtree entry's index is below the accepted count, the
pruning loop never hits the out-of-bounds panic. -/
theorem pruneGo_isSome (inter : Polygon → Polygon → Bool) :
    ∀ (houses acc : List Polygon) (qt : List (Nat × Bounds)),
      (∀ e ∈ qt, e.1 < acc.length) → (pruneGo inter houses acc qt).isSome = true := by
  intro houses
  induction houses with
  | nil => intro acc qt _; simp [pruneGo]
  | cons poly rest ih =>
    intro acc qt hb
    have hhits : ∀ e ∈ qt.filter fun e => boundsIntersect e.2 (addBuffer 1 (polyBounds poly)),
        e.1 < acc.length := by
      intro e he
      exact hb e (List.mem_filter.mp he).1
    rw [pruneGo, checkHits_eq_any _ _ _ _ hhits]
    by_cases hany : ((qt.filter fun e => boundsIntersect e.2 (addBuffer 1 (polyBounds poly))).any
        fun e => inter poly (acc.getD e.1 []))
    · simp only [hany]
      exact ih acc qt hb
    · simp only [hany]
      refine ih (acc ++ [poly]) (qt ++ [(acc.length, polyBounds poly)]) ?_
      intro e he
      rcases List.mem_append.mp he with h | h
      · have := hb e h
        simp only [List.length_append, List.length_cons]
        omega
      · simp only [List.mem_singleton] at h
        subst h
        simp

/-- Two booleans agreeing as propositions are equal. -/
theorem bool_eq_of_iff {a b : Bool} (h : a = true ↔ b = true) : a = b := by
  cases a <;> cases b <;> simp_all

/-- Under the quadtree invariant, the query-driven overlap check of the
pruning loop coincides with the direct scan of all accepted polygons, provided
intersecting polygons always have intersecting bounding boxes. -/
theorem hits_any_eq_acc_any (inter : Polygon → Polygon → Bool)
    (Hbb : ∀ a b, inter a b = true → boundsIntersect (polyBounds a) (polyBounds b) = true)
    (acc : List Polygon) (qt : List (Nat × Bounds)) (poly : Polygon)
    (hinv : qtInv acc qt) :
    ((qt.filter fun e => boundsIntersect e.2 (addBuffer 1 (polyBounds poly))).any
        fun e => inter poly (acc.getD e.1 [])) =
      acc.any fun q => inter poly q := by
  apply bool_eq_of_iff
  simp only [List.any_eq_true]
  constructor
  · rintro ⟨e, hef, hi⟩
    have heq := (hinv e).mp (List.mem_filter.mp hef).1
    refine ⟨acc.getD e.1 [], ?_, hi⟩
    rw [List.getD_eq_getElem?_getD, List.getElem?_eq_getElem heq.1, Option.getD_some]
    exact List.getElem_mem _
  · rintro ⟨q, hq, hi⟩
    obtain ⟨i, hilt, hieq⟩ := List.mem_iff_getElem.mp hq
    have hgd : acc.getD i [] = q := by
      simp [List.getD_eq_getElem?_getD, List.getElem?_eq_getElem hilt, hieq]
    refine ⟨(i, polyBounds q),
      List.mem_filter.mpr ⟨(hinv _).mpr ⟨hilt, by simp [List.getElem?_eq_getElem hilt, hieq]⟩, ?_⟩,
      by simpa [List.getElem?_eq_getElem hilt, hieq] using hi⟩
    have h1 : boundsIntersect (polyBounds poly) (polyBounds q) = true := Hbb _ _ hi
    rw [boundsIntersect_comm] at h1
    exact boundsIntersect_addBuffer 1 _ _ (by norm_num) h1

/-- The quadtree invariant is preserved when a polygon is accepted: its index
is registered at the moment it is appended. -/
theorem qtInv_snoc (acc : List Polygon) (qt : List (Nat × Bounds)) (poly : Polygon)
    (hinv : qtInv acc qt) :
    qtInv (acc ++ [poly]) (qt ++ [(acc.length, polyBounds poly)]) := by
  intro e
  constructor
  · intro he
    rcases List.mem_append.mp he with h | h
    · obtain ⟨h1, h2⟩ := (hinv e).mp h
      refine ⟨by simp; omega, ?_⟩
      rwa [List.getD_eq_getElem?_getD, List.getElem?_append_left h1,
        ← List.getD_eq_getElem?_getD]
    · simp only [List.mem_singleton] at h
      subst h
      refine ⟨by simp, ?_⟩
      simp [List.getD_eq_getElem?_getD, List.getElem?_concat_length]
  · rintro ⟨h1, h2⟩
    simp only [List.length_append, List.length_singleton] at h1
    rcases Nat.lt_succ_iff_lt_or_eq.mp h1 with h | h
    · refine List.mem_append.mpr (Or.inl ((hinv e).mpr ⟨h, ?_⟩))
      rwa [List.getD_eq_getElem?_getD, List.getElem?_append_left h,
        ← List.getD_eq_getElem?_getD] at h2
    · refine List.mem_append.mpr (Or.inr ?_)
      rw [List.getD_eq_getElem?_getD, h, List.getElem?_concat_length] at h2
      have : e = (e.1, e.2) := rfl
      rw [this, h, h2]
      simp

/-- Under the quadtree invariant, the pruning loop refines the spec's greedy
description: it accepts exactly the candidates that overlap no previously
accepted polygon. -/
theorem pruneGo_eq_spec (inter : Polygon → Polygon → Bool)
    (Hbb : ∀ a b, inter a b = true → boundsIntersect (polyBounds a) (polyBounds b) = true) :
    ∀ (houses acc : List Polygon) (qt : List (Nat × Bounds)),
      qtInv acc qt → pruneGo inter houses acc qt = some (specPruneGo inter houses acc) := by
  intro houses
  induction houses with
  | nil => intro acc qt _; simp [pruneGo, specPruneGo]
  | cons poly rest ih =>
    intro acc qt hinv
    have hhits : ∀ e ∈ qt.filter fun e => boundsIntersect e.2 (addBuffer 1 (polyBounds poly)),
        e.1 < acc.length := by
      intro e he
      exact ((hinv e).mp (List.mem_filter.mp he).1).1
    rw [pruneGo, checkHits_eq_any _ _ _ _ hhits,
      hits_any_eq_acc_any inter Hbb acc qt poly hinv]
    by_cases hany : (acc.any fun q => inter poly q)
    · simp only [hany, specPruneGo, if_true]
      exact ih acc qt hinv
    · simp only [hany, specPruneGo, if_false, Bool.false_eq_true]
      exact ih (acc ++ [poly]) _ (qtInv_snoc acc qt poly hinv)

/-- The empty quadtree paired with the empty accepted sequence satisfies the
quadtree invariant. -/
theorem qtInv_nil : qtInv [] [] := by
  intro e
  simp [qtInv]

/-- The pruning pass, started empty, computes exactly the spec's greedy
subset whenever intersecting polygons have intersecting bounding boxes. -/
theorem pruneOverlaps_eq_spec (inter : Polygon → Polygon → Bool)
    (Hbb : ∀ a b, inter a b = true → boundsIntersect (polyBounds a) (polyBounds b) = true)
    (houses : List Polygon) :
    pruneOverlaps inter houses = some (specPruneGo inter houses []) :=
  pruneGo_eq_spec inter Hbb houses [] [] qtInv_nil

/-- The greedy pass keeps the accepted sequence pairwise non-overlapping:
every kept candidate fails the intersection test against every earlier kept
candidate. -/
theorem specPruneGo_pairwise (inter : Polygon → Polygon → Bool) :
    ∀ (houses acc : List Polygon),
      acc.Pairwise (fun a b => inter b a = false) →
      (specPruneGo inter houses acc).Pairwise (fun a b => inter b a = false) := by
  intro houses
  induction houses with
  | nil => intro acc h; simpa [specPruneGo] using h
  | cons p rest ih =>
    intro acc h
    rw [specPruneGo]
    by_cases hany : (acc.any fun q => inter p q)
    · simp only [hany, if_true]
      exact ih acc h
    · simp only [hany, Bool.false_eq_true, if_false]
      refine ih (acc ++ [p]) ?_
      rw [List.pairwise_append]
      refine ⟨h, by simp, ?_⟩
      intro a ha b hb
      simp only [List.mem_singleton] at hb
      subst hb
      have := (List.any_eq_true.not.mp hany)
      push_neg at this
      have := this a ha
      simpa using this

/-- Appending one more candidate to the input of the greedy pass either keeps
the output unchanged (when the newcomer overlaps a kept candidate) or appends
the newcomer at the end. -/
theorem specPruneGo_concat (inter : Polygon → Polygon → Bool) :
    ∀ (xs acc : List Polygon) (p : Polygon),
      specPruneGo inter (xs ++ [p]) acc =
        if (specPruneGo inter xs acc).any (fun q => inter p q) then specPruneGo inter xs acc
        else specPruneGo inter xs acc ++ [p] := by
  intro xs
  induction xs with
  | nil => intro acc p; simp [specPruneGo]
  | cons x rest ih =>
    intro acc p
    rw [List.cons_append, specPruneGo]
    by_cases hx : (acc.any fun q => inter x q)
    · simp only [hx, if_true, ih, specPruneGo]
    · simp only [hx, Bool.false_eq_true, if_false, ih, specPruneGo]

/-- The bounding-box overlap test on polygons: an intersection predicate that
trivially respects bounding boxes and is symmetric, used to instantiate the
abstract exact intersection test in witnesses. -/
def interBB (a b : Polygon) : Bool :=
  boundsIntersect (polyBounds a) (polyBounds b)

/-- A map with no lanes, no buildings and no obstacles. -/
def emptyMap : MapData :=
  { lanes := [], getRoad := fun _ => ⟨[]⟩, buildings := [], obstacles := [] }

/-- The all-zero random stream, positioned at its start. -/
def zeroRng : Rng := ⟨fun _ => 0, 0⟩

/-- C9: the pruning loop's quadtree only ever hands out indices of already
accepted polygons, so the lookup non_overlapping[*idx] is always in bounds:
the pass always completes (its modelled out-of-bounds panic is unreachable),
for every intersection test and every candidate list. -/
theorem prune_lookup_always_in_bounds (inter : Polygon → Polygon → Bool)
    (houses : List Polygon) : (pruneOverlaps inter houses).isSome = true :=
  pruneGo_isSome inter houses [] [] (by intro e he; simp at he)

/-- C1: whenever the exact polygon-intersection test respects bounding boxes
and is symmetric, the final output of the pipeline — and already the output of
the self-overlap pruning pass — is pairwise non-intersecting: the test is
false between any two distinct polygons of the returned sequence. -/
theorem output_pairwise_disjoint (inter : Polygon → Polygon → Bool)
    (Hbb : ∀ a b, inter a b = true → boundsIntersect (polyBounds a) (polyBounds b) = true)
    (Hsymm : ∀ a b, inter a b = inter b a) :
    (∀ (m : MapData) (rng : Rng) (fuel : Nat) (out : List Polygon),
        generate inter m rng fuel = some out →
        out.Pairwise fun a b => inter a b = false ∧ inter b a = false) ∧
      (∀ houses out : List Polygon, pruneOverlaps inter houses = some out →
        out.Pairwise fun a b => inter a b = false ∧ inter b a = false) := by
  have hprune : ∀ houses out : List Polygon, pruneOverlaps inter houses = some out →
      out.Pairwise fun a b => inter a b = false ∧ inter b a = false := by
    intro houses out h
    rw [pruneOverlaps_eq_spec inter Hbb] at h
    injection h with h
    subst h
    have hpw := specPruneGo_pairwise inter houses [] (by simp)
    exact hpw.imp fun {a b} hba => ⟨(Hsymm a b).trans hba, hba⟩
  refine ⟨?_, hprune⟩
  intro m rng fuel out hgen
  unfold generate at hgen
  cases hplace : placeAll fuel m (emptySidewalks m) rng [] with
  | none => rw [hplace] at hgen; cases hgen
  | some hr =>
    rw [hplace] at hgen
    dsimp only at hgen
    cases hpr : pruneOverlaps inter hr.1 with
    | none => rw [hpr] at hgen; cases hgen
    | some pruned =>
      rw [hpr] at hgen
      dsimp only at hgen
      injection hgen with hgen
      subst hgen
      exact (hprune hr.1 pruned hpr).sublist (List.filter_sublist _)

/-- C1 witness: the bounding-box test satisfies both hypotheses, and a run of
the pipeline on the empty map returns the empty, trivially pairwise disjoint
sequence. -/
theorem output_pairwise_disjoint_witness :
    (∀ a b : Polygon, interBB a b = true → boundsIntersect (polyBounds a) (polyBounds b) = true) ∧
      (∀ a b : Polygon, interBB a b = interBB b a) ∧
      generate interBB emptyMap zeroRng 0 = some [] ∧
      List.Pairwise (fun a b => interBB a b = false ∧ interBB b a = false) [] :=
  ⟨fun _ _ h => h, fun a b => boundsIntersect_comm (polyBounds a) (polyBounds b), rfl,
    (output_pairwise_disjoint interBB (fun _ _ h => h)
      (fun a b => boundsIntersect_comm (polyBounds a) (polyBounds b))).1 emptyMap zeroRng 0 [] rfl⟩

/-- C6: the pruning pass breaks ties by generation order.  For two overlapping
adjacent candidates exactly the earlier one is retained; in general the pass
computes the spec's greedy subset, and appending a later candidate never
dislodges earlier accepted ones: the newcomer is dropped exactly when it
intersects an already accepted polygon. -/
theorem prune_generation_order_tiebreak (inter : Polygon → Polygon → Bool)
    (Hbb : ∀ a b, inter a b = true → boundsIntersect (polyBounds a) (polyBounds b) = true) :
    (∀ a b : Polygon, inter b a = true → pruneOverlaps inter [a, b] = some [a]) ∧
      (∀ houses : List Polygon,
        pruneOverlaps inter houses = some (specPruneGo inter houses [])) ∧
      (∀ (houses : List Polygon) (p : Polygon) (out : List Polygon),
        pruneOverlaps inter houses = some out →
          ((∃ q ∈ out, inter p q = true) → pruneOverlaps inter (houses ++ [p]) = some out) ∧
          ((∀ q ∈ out, inter p q = false) →
            pruneOverlaps inter (houses ++ [p]) = some (out ++ [p]))) := by
  refine ⟨?_, pruneOverlaps_eq_spec inter Hbb, ?_⟩
  · intro a b hba
    rw [pruneOverlaps_eq_spec inter Hbb]
    simp [specPruneGo, hba]
  · intro houses p out hout
    rw [pruneOverlaps_eq_spec inter Hbb] at hout
    injection hout with hout
    subst hout
    constructor
    · intro hex
      rw [pruneOverlaps_eq_spec inter Hbb, specPruneGo_concat]
      have h : ((specPruneGo inter houses []).any fun q => inter p q) = true :=
        List.any_eq_true.mpr hex
      simp [h]
    · intro hall
      rw [pruneOverlaps_eq_spec inter Hbb, specPruneGo_concat]
      have h : ((specPruneGo inter houses []).any fun q => inter p q) = false := by
        rw [List.any_eq_false]
        intro q hq
        simp [hall q hq]
      simp [h]

/-- C6 witness: two unit squares sharing area; the pruning pass keeps exactly
the first. -/
theorem prune_generation_order_tiebreak_witness :
    (∀ a b : Polygon, interBB a b = true → boundsIntersect (polyBounds a) (polyBounds b) = true) ∧
      interBB [((1 : ℚ), (0 : ℚ)), (2, 0), (2, 1), (1, 1)] [(0, 0), (1, 0), (1, 1), (0, 1)] =
        true ∧
      pruneOverlaps interBB
          [[(0, 0), (1, 0), (1, 1), (0, 1)], [(1, 0), (2, 0), (2, 1), (1, 1)]] =
        some [[(0, 0), (1, 0), (1, 1), (0, 1)]] :=
  ⟨fun _ _ h => h, by decide,
    (prune_generation_order_tiebreak interBB (fun _ _ h => h)).1
      [(0, 0), (1, 0), (1, 1), (0, 1)] [(1, 0), (2, 0), (2, 1), (1, 1)] (by decide)⟩

/-- Membership in the hash set built by folding insertions equals membership
in the inserted elements (or the initial set). -/
theorem contains_foldl_insertHash :
    ∀ (bs : List BuildingData) (s : List Nat) (x : Nat),
      (bs.foldl (fun s b => insertHash s b.sidewalk) s).contains x =
        (s.contains x || bs.any fun b => b.sidewalk == x) := by
  intro bs
  induction bs with
  | nil => intro s x; simp
  | cons b rest ih =>
    intro s x
    rw [List.foldl_cons, ih, List.any_cons]
    have hstep : (insertHash s b.sidewalk).contains x = (s.contains x || b.sidewalk == x) := by
      rw [insertHash]
      by_cases hc : s.contains b.sidewalk = true
      · rw [if_pos hc]
        by_cases hbx : b.sidewalk = x
        · subst hbx
          simp_all
        · simp [hbx]
      · rw [if_neg hc]
        by_cases hbx : b.sidewalk = x
        · subst hbx
          simp
        · have hxb : ¬x = b.sidewalk := fun h => hbx h.symm
          simp [hbx, hxb]
    rw [hstep, Bool.or_assoc, Bool.or_comm (b.sidewalk == x)]

/-- Folding a conditional push over a list appends the filtered, projected
elements to the accumulator. -/
theorem foldl_push_filter (p : LaneData → Bool) :
    ∀ (ls : List LaneData) (acc : List Nat),
      ls.foldl (fun acc l => if p l then acc ++ [l.id] else acc) acc =
        acc ++ (ls.filter p).map LaneData.id := by
  intro ls
  induction ls with
  | nil => intro acc; simp
  | cons l rest ih =>
    intro acc
    rw [List.foldl_cons]
    by_cases hp : p l
    · simp [hp, ih]
    · simp [hp, ih]

/-- C5: the sidewalk-selection stage returns exactly the ids of the lanes that
are sidewalks, are referenced by no existing building's frontage, and whose
parent road is tagged residential — in lane iteration order. -/
theorem empty_sidewalks_characterization (m : MapData) :
    emptySidewalks m =
      ((m.lanes.filter fun l =>
          l.isSidewalk && (m.buildings.all fun b => b.sidewalk != l.id) &&
            tagIs (m.getRoad l.parent).tags "highway" "residential").map LaneData.id) ∧
      ∀ i, i ∈ emptySidewalks m ↔
        ∃ l ∈ m.lanes, l.id = i ∧ l.isSidewalk = true ∧
          (∀ b ∈ m.buildings, b.sidewalk ≠ l.id) ∧
          tagIs (m.getRoad l.parent).tags "highway" "residential" = true := by
  have hmain : emptySidewalks m =
      ((m.lanes.filter fun l =>
          l.isSidewalk && (m.buildings.all fun b => b.sidewalk != l.id) &&
            tagIs (m.getRoad l.parent).tags "highway" "residential").map LaneData.id) := by
    rw [emptySidewalks, foldl_push_filter, List.nil_append]
    congr 1
    apply List.filter_congr
    intro l _
    have h1 : (lanesWithBuildings m).contains l.id = (m.buildings.any fun b => b.sidewalk == l.id) := by
      rw [lanesWithBuildings, contains_foldl_insertHash]
      simp
    rw [h1]
    have h2 : (!(m.buildings.any fun b => b.sidewalk == l.id)) =
        (m.buildings.all fun b => b.sidewalk != l.id) := by
      apply bool_eq_of_iff
      simp [List.any_eq_true, List.all_eq_true]
    rw [h2]
  refine ⟨hmain, ?_⟩
  intro i
  rw [hmain]
  simp only [List.mem_map, List.mem_filter, Bool.and_eq_true, List.all_eq_true, bne_iff_ne,
    ne_eq]
  constructor
  · rintro ⟨l, ⟨hl, ⟨hs, hb⟩, ht⟩, hid⟩
    exact ⟨l, hl, hid, hs, hb, ht⟩
  · rintro ⟨l, hl, hid, hs, hb, ht⟩
    exact ⟨l, ⟨hl, ⟨hs, hb⟩, ht⟩, hid⟩

/-- C4: a candidate survives the basemap filter iff every obstacle whose
bounding box intersects the candidate's bounding box contains none of the
candidate's points. -/
theorem basemap_filter_characterization (obstacles : List Obstacle)
    (polys : List Polygon) (p : Polygon) :
    p ∈ basemapFilter obstacles polys ↔
      p ∈ polys ∧ ∀ o ∈ obstacles, boundsIntersect o.bbox (polyBounds p) = true →
        ∀ pt ∈ p, o.containsPt pt = false := by
  rw [basemapFilter, List.mem_filter]
  constructor
  · rintro ⟨hp, hall⟩
    refine ⟨hp, ?_⟩
    intro o ho hbi pt hpt
    simp only [getRenderables, List.all_eq_true, List.mem_filter] at hall
    have := hall o ⟨ho, hbi⟩
    simp only [Bool.not_eq_true', List.any_eq_false] at this
    simpa using this pt hpt
  · rintro ⟨hp, h⟩
    refine ⟨hp, ?_⟩
    simp only [getRenderables, List.all_eq_true, List.mem_filter]
    rintro o ⟨ho, hbi⟩
    simp only [Bool.not_eq_true', List.any_eq_false]
    intro pt hpt
    simpa using h o ho hbi pt hpt

/-- C8: rand_dist fails fast exactly on an invalid range: it aborts iff
high ≤ low, and on a valid range it draws a value from [low, high) without
altering the bounds. -/
theorem rand_dist_fail_fast (rng : Rng) (low high : ℚ) :
    (rand_dist rng low high = none ↔ high ≤ low) ∧
      (streamOk rng → low < high →
        ∃ v rng', rand_dist rng low high = some (v, rng') ∧ low ≤ v ∧ v < high ∧
          rng'.stream = rng.stream) := by
  constructor
  · constructor
    · intro hnone
      by_contra hnlt
      push_neg at hnlt
      rw [rand_dist, if_pos hnlt] at hnone
      cases hnone
    · intro hle
      rw [rand_dist, if_neg (not_lt.mpr hle)]
  · intro hso hlt
    obtain ⟨hu0, hu1⟩ := hso rng.idx
    refine ⟨(rng.genRange low high).1, (rng.genRange low high).2, ?_, ?_, ?_, rfl⟩
    · rw [rand_dist, if_pos hlt]
    · have : 0 ≤ rng.stream rng.idx * (high - low) :=
        mul_nonneg hu0 (by linarith)
      simp only [Rng.genRange]
      linarith
    · have : rng.stream rng.idx * (high - low) < 1 * (high - low) :=
        mul_lt_mul_of_pos_right hu1 (by linarith)
      simp only [Rng.genRange]
      linarith

/-- C8 witness: the valid range [2, 4) with the all-zero stream. -/
theorem rand_dist_fail_fast_witness :
    streamOk zeroRng ∧ (2 : ℚ) < 4 ∧
      (rand_dist zeroRng 2 4 = none ↔ (4 : ℚ) ≤ 2) ∧
      ∃ v rng', rand_dist zeroRng 2 4 = some (v, rng') ∧ (2 : ℚ) ≤ v ∧ v < 4 ∧
        rng'.stream = zeroRng.stream :=
  have hso : streamOk zeroRng := fun n => by constructor <;> norm_num [zeroRng]
  ⟨hso, by norm_num, (rand_dist_fail_fast zeroRng 2 4).1,
    (rand_dist_fail_fast zeroRng 2 4).2 hso (by norm_num)⟩

/-- C3: the pipeline is deterministic: two runs with the same map, the same
random stream and cursor, and the same iteration budget return identical
output sequences. -/
theorem generate_deterministic (inter : Polygon → Polygon → Bool) (m : MapData)
    (r1 r2 : Rng) (fuel : Nat) (hs : r1.stream = r2.stream) (hi : r1.idx = r2.idx) :
    generate inter m r1 fuel = generate inter m r2 fuel := by
  obtain ⟨s1, i1⟩ := r1
  obtain ⟨s2, i2⟩ := r2
  simp only at hs hi
  subst hs
  subst hi
  rfl

/-- A constant one-half stream, positioned at its start. -/
def halfRng : Rng := ⟨fun _ => 1 / 2, 0⟩

/-- The same stream as halfRng written differently, positioned at its start. -/
def halfRngAlt : Rng := ⟨fun _ => 2 / 4, 0⟩

/-- C3 witness: two independently constructed but equal-valued rngs drive the
pipeline to the same output. -/
theorem generate_deterministic_witness :
    halfRng.stream = halfRngAlt.stream ∧ halfRng.idx = halfRngAlt.idx ∧
      generate interBB emptyMap halfRng 1 = generate interBB emptyMap halfRngAlt 1 :=
  have hs : halfRng.stream = halfRngAlt.stream := funext fun n => by
    norm_num [halfRng, halfRngAlt]
  ⟨hs, rfl, generate_deterministic interBB emptyMap halfRng halfRngAlt 1 hs rfl⟩

/-- One unfolding of the placement loop in the running case: the emitted house
is built at the sampled point from the sampled width and height, and the loop
recurses with the scan distance advanced by max(width, height) plus the
sampled gap. -/
theorem placeHouses_step (fuel : Nat) (lane : LaneData) (d : ℚ) (rng : Rng)
    (acc : List Polygon) (hd : d < lane.length) :
    placeHouses (fuel + 1) lane d rng acc =
      placeHouses fuel lane
        (d + max (rng.genRange 6 14).1 ((rng.genRange 6 14).2.genRange 6 14).1 +
          (((rng.genRange 6 14).2.genRange 6 14).2.genRange 2 4).1)
        (((rng.genRange 6 14).2.genRange 6 14).2.genRange 2 4).2
        (acc ++ [mkHouse (lane.sample d).1 (lane.sample d).2 (rng.genRange 6 14).1
          ((rng.genRange 6 14).2.genRange 6 14).1]) := by
  rw [placeHouses, if_pos hd]
  norm_num [rand_dist]

/-- Advancing the stream cursor preserves well-formedness of the stream. -/
theorem streamOk_genRange (r : Rng) (low high : ℚ) (h : streamOk r) :
    streamOk (r.genRange low high).2 := fun n => h n

/-- C10: the per-lane placement loop terminates.  Every iteration advances the
scan distance by max(width, height) + gap ≥ 6 + 2 = 8, so a fuel budget
covering (length - start)/8 iterations suffices, and in particular the loop
finishes within some finite fuel for every lane of finite length. -/
theorem placeHouses_terminates (lane : LaneData) :
    (∀ (fuel : Nat) (d : ℚ) (rng : Rng) (acc : List Polygon), streamOk rng →
        lane.length ≤ d + 8 * fuel → (placeHouses fuel lane d rng acc).isSome = true) ∧
      ∀ (d : ℚ) (rng : Rng) (acc : List Polygon), streamOk rng →
        ∃ fuel : Nat, (placeHouses fuel lane d rng acc).isSome = true := by
  have main : ∀ (fuel : Nat) (d : ℚ) (rng : Rng) (acc : List Polygon), streamOk rng →
      lane.length ≤ d + 8 * fuel → (placeHouses fuel lane d rng acc).isSome = true := by
    intro fuel
    induction fuel with
    | zero =>
      intro d rng acc _ hb
      push_cast at hb
      rw [placeHouses, if_neg (not_lt.mpr (by linarith))]
      simp
    | succ n ih =>
      intro d rng acc hso hb
      by_cases hd : d < lane.length
      · rw [placeHouses_step n lane d rng acc hd]
        refine ih _ _ _ (streamOk_genRange _ _ _ (streamOk_genRange _ _ _
          (streamOk_genRange _ _ _ hso))) ?_
        have hu0 := hso rng.idx
        have hu2 := hso (rng.idx + 1 + 1)
        simp only [Rng.genRange]
        push_cast at hb
        have h1 : 0 ≤ rng.stream rng.idx * (14 - 6) := mul_nonneg hu0.1 (by norm_num)
        have h2 : 0 ≤ rng.stream (rng.idx + 1 + 1) * (4 - 2) := mul_nonneg hu2.1 (by norm_num)
        have hmax : (6 + rng.stream rng.idx * (14 - 6) : ℚ) ≤
            max (6 + rng.stream rng.idx * (14 - 6))
              (6 + rng.stream (rng.idx + 1) * (14 - 6)) := le_max_left _ _
        linarith
      · rw [placeHouses, if_neg hd]
        simp
  refine ⟨main, ?_⟩
  intro d rng acc hso
  refine ⟨⌈(lane.length - d) / 8⌉₊, main _ d rng acc hso ?_⟩
  have hceil : (lane.length - d) / 8 ≤ (⌈(lane.length - d) / 8⌉₊ : ℚ) := Nat.le_ceil _
  linarith

/-- A straight demonstration lane along the x axis. -/
def demoLane : LaneData :=
  { id := 1, parent := 1, isSidewalk := true, length := 5,
    sample := fun d => ((d, 0), ⟨1, 0⟩) }

/-- C10 witness: one unit of fuel finishes the loop on a straight lane of
length 5 started at distance 1 with the constant one-half stream. -/
theorem placeHouses_terminates_witness :
    streamOk halfRng ∧ demoLane.length ≤ 1 + 8 * (1 : Nat) ∧
      (placeHouses 1 demoLane 1 halfRng []).isSome = true :=
  have hso : streamOk halfRng := fun n => by constructor <;> norm_num [halfRng]
  have hb : demoLane.length ≤ 1 + 8 * ((1 : Nat) : ℚ) := by norm_num [demoLane]
  ⟨hso, by exact_mod_cast hb, (placeHouses_terminates demoLane).1 1 1 halfRng [] hso hb⟩

/-- The inner product of the vector from the house's k-th vertex to the
sidewalk point with the normal (-s, c) of the front edge of the rotated
rectangle (the edge joining vertices 2 and 3, which faces the sidewalk). -/
def frontSetbackDot (house : Polygon) (spt : Pt) (ang : Angle) (k : Nat) : ℚ :=
  let f := house.getD k (0, 0)
  (spt.1 - f.1) * (-ang.s) + (spt.2 - f.2) * ang.c

/-- For a unit tangent direction, both front corners of a generated house lie
on a line whose perpendicular (signed) distance from the source sidewalk
point is exactly the base setback of 10, whatever the sampled height. -/
theorem mkHouse_front_setback (spt : Pt) (ang : Angle) (w h : ℚ)
    (hu : ang.c ^ 2 + ang.s ^ 2 = 1) :
    (mkHouse spt ang w h).length = 4 ∧
      frontSetbackDot (mkHouse spt ang w h) spt ang 2 = 10 ∧
      frontSetbackDot (mkHouse spt ang w h) spt ang 3 = 10 := by
  obtain ⟨c, s⟩ := ang
  obtain ⟨px, py⟩ := spt
  simp only [Angle.mk.injEq] at hu
  refine ⟨by simp [mkHouse, Polygon.rectangle, Polygon.rotate, Polygon.translate], ?_, ?_⟩ <;>
    · simp only [frontSetbackDot, mkHouse, Polygon.rectangle, Polygon.rotate, Polygon.center,
        Polygon.translate, projectAway, Angle.rotateNeg90, List.map_cons, List.map_nil,
        List.foldl_cons, List.foldl_nil, List.length_cons, List.length_nil,
        List.getD_cons_succ, List.getD_cons_zero]
      push_cast
      linear_combination (10 : ℚ) * hu

/-- Every polygon emitted by the placement loop that was not already in the
accumulator is a house built by mkHouse from the point and tangent sampled at
some distance along the lane. -/
theorem placeHouses_shape (lane : LaneData) :
    ∀ (fuel : Nat) (d : ℚ) (rng : Rng) (acc out : List Polygon) (rng' : Rng),
      placeHouses fuel lane d rng acc = some (out, rng') →
      ∀ p ∈ out, p ∈ acc ∨ ∃ t w h : ℚ,
        p = mkHouse (lane.sample t).1 (lane.sample t).2 w h := by
  intro fuel
  induction fuel with
  | zero =>
    intro d rng acc out rng' hrun p hp
    rw [placeHouses] at hrun
    by_cases hd : d < lane.length
    · rw [if_pos hd] at hrun
      cases hrun
    · rw [if_neg hd] at hrun
      simp only [Option.some.injEq, Prod.mk.injEq] at hrun
      obtain ⟨h1, _⟩ := hrun
      subst h1
      exact Or.inl hp
  | succ n ih =>
    intro d rng acc out rng' hrun p hp
    by_cases hd : d < lane.length
    · rw [placeHouses_step n lane d rng acc hd] at hrun
      rcases ih _ _ _ _ _ hrun p hp with hin | hex
      · rcases List.mem_append.mp hin with h | h
        · exact Or.inl h
        · simp only [List.mem_singleton] at h
          exact Or.inr ⟨d, _, _, h⟩
      · exact Or.inr hex
    · rw [placeHouses, if_neg hd] at hrun
      simp only [Option.some.injEq, Prod.mk.injEq] at hrun
      obtain ⟨h1, _⟩ := hrun
      subst h1
      exact Or.inl hp

/-- C2: every candidate emitted by the placer is built by mkHouse at its
source sidewalk point, and — whenever the lane's tangent directions are unit
vectors — the front edge of the candidate (the edge joining vertices 2 and 3,
nearest the sidewalk) lies on a line whose perpendicular signed distance to
the source sidewalk point is exactly the fixed base setback 10, regardless of
the sampled height. -/
theorem front_setback_invariant (lane : LaneData) (fuel : Nat) (d : ℚ) (rng : Rng)
    (out : List Polygon) (rng' : Rng)
    (Hunit : ∀ t : ℚ, ((lane.sample t).2).c ^ 2 + ((lane.sample t).2).s ^ 2 = 1)
    (hrun : placeHouses fuel lane d rng [] = some (out, rng')) :
    ∀ p ∈ out, ∃ t w h : ℚ,
      p = mkHouse (lane.sample t).1 (lane.sample t).2 w h ∧
      p.length = 4 ∧
      frontSetbackDot p (lane.sample t).1 (lane.sample t).2 2 = 10 ∧
      frontSetbackDot p (lane.sample t).1 (lane.sample t).2 3 = 10 := by
  intro p hp
  rcases placeHouses_shape lane fuel d rng [] out rng' hrun p hp with h | ⟨t, w, h, hmk⟩
  · simp at h
  · obtain ⟨h4, hd2, hd3⟩ :=
      mkHouse_front_setback (lane.sample t).1 (lane.sample t).2 w h (Hunit t)
    exact ⟨t, w, h, hmk, by rw [hmk]; exact h4, by rw [hmk]; exact hd2, by rw [hmk]; exact hd3⟩

/-- C2 witness: a run on the straight demonstration lane emits one house whose
front edge sits exactly 10 meters from its sidewalk point. -/
theorem front_setback_invariant_witness :
    (∀ t : ℚ, ((demoLane.sample t).2).c ^ 2 + ((demoLane.sample t).2).s ^ 2 = 1) ∧
      placeHouses 1 demoLane 1 halfRng [] =
        some ([[(-4, -20), (6, -20), (6, -10), (-4, -10)]], ⟨halfRng.stream, 3⟩) ∧
      ∃ t w h : ℚ,
        ([((-4 : ℚ), (-20 : ℚ)), (6, -20), (6, -10), (-4, -10)] : Polygon) =
            mkHouse (demoLane.sample t).1 (demoLane.sample t).2 w h ∧
          ([((-4 : ℚ), (-20 : ℚ)), (6, -20), (6, -10), (-4, -10)] : Polygon).length = 4 ∧
          frontSetbackDot [(-4, -20), (6, -20), (6, -10), (-4, -10)]
              (demoLane.sample t).1 (demoLane.sample t).2 2 = 10 ∧
          frontSetbackDot [(-4, -20), (6, -20), (6, -10), (-4, -10)]
              (demoLane.sample t).1 (demoLane.sample t).2 3 = 10 :=
  have hu : ∀ t : ℚ, ((demoLane.sample t).2).c ^ 2 + ((demoLane.sample t).2).s ^ 2 = 1 :=
    fun t => by norm_num [demoLane]
  have hrun : placeHouses 1 demoLane 1 halfRng [] =
      some ([[(-4, -20), (6, -20), (6, -10), (-4, -10)]], ⟨halfRng.stream, 3⟩) := by
    norm_num [placeHouses, demoLane, halfRng, Rng.genRange, rand_dist, mkHouse, projectAway,
      Angle.rotateNeg90, Polygon.rectangle, Polygon.center, Polygon.rotate, Polygon.translate]
  ⟨hu, hrun,
    front_setback_invariant demoLane 1 1 halfRng _ _ hu hrun
      [(-4, -20), (6, -20), (6, -10), (-4, -10)] (List.mem_singleton.mpr rfl)⟩

/-- C7 (amended): after each emission the placer advances the scan distance by
max(width, height) plus a random gap drawn from [2, 4), so the distances at
which consecutive candidates of one lane are emitted differ by at least
6 + 2 = 8.  This spacing does not by itself keep consecutive candidates'
polygons disjoint. -/
theorem consecutive_candidates_spacing (lane : LaneData) (fuel : Nat) (d : ℚ)
    (rng : Rng) (acc : List Polygon) (hso : streamOk rng) (hd : d < lane.length) :
    ∃ w h gap : ℚ, ∃ rng' : Rng,
      placeHouses (fuel + 1) lane d rng acc =
        placeHouses fuel lane (d + max w h + gap) rng'
          (acc ++ [mkHouse (lane.sample d).1 (lane.sample d).2 w h]) ∧
      2 ≤ gap ∧ gap < 4 ∧ 8 ≤ max w h + gap := by
  refine ⟨(rng.genRange 6 14).1, ((rng.genRange 6 14).2.genRange 6 14).1,
    (((rng.genRange 6 14).2.genRange 6 14).2.genRange 2 4).1,
    (((rng.genRange 6 14).2.genRange 6 14).2.genRange 2 4).2,
    placeHouses_step fuel lane d rng acc hd, ?_, ?_, ?_⟩
  · simp only [Rng.genRange]
    have hu := hso (rng.idx + 1 + 1)
    have := mul_nonneg hu.1 (by norm_num : (0 : ℚ) ≤ 4 - 2)
    linarith
  · simp only [Rng.genRange]
    have hu := hso (rng.idx + 1 + 1)
    linarith [hu.2]
  · have hw : (6 : ℚ) ≤ (rng.genRange 6 14).1 := by
      simp only [Rng.genRange]
      have hu := hso rng.idx
      have := mul_nonneg hu.1 (by norm_num : (0 : ℚ) ≤ 14 - 6)
      linarith
    have hmax : (rng.genRange 6 14).1 ≤
        max (rng.genRange 6 14).1 ((rng.genRange 6 14).2.genRange 6 14).1 := le_max_left _ _
    have hg : (2 : ℚ) ≤ (((rng.genRange 6 14).2.genRange 6 14).2.genRange 2 4).1 := by
      simp only [Rng.genRange]
      have hu := hso (rng.idx + 1 + 1)
      have := mul_nonneg hu.1 (by norm_num : (0 : ℚ) ≤ 4 - 2)
      linarith
    linarith

/-- C7 witness for the amended statement: the first step on the demonstration
lane with the constant one-half stream. -/
theorem consecutive_candidates_spacing_witness :
    streamOk halfRng ∧ (1 : ℚ) < demoLane.length ∧
      ∃ w h gap : ℚ, ∃ rng' : Rng,
        placeHouses 1 demoLane 1 halfRng [] =
          placeHouses 0 demoLane (1 + max w h + gap) rng'
            ([] ++ [mkHouse (demoLane.sample 1).1 (demoLane.sample 1).2 w h]) ∧
        2 ≤ gap ∧ gap < 4 ∧ 8 ≤ max w h + gap :=
  have hso : streamOk halfRng := fun n => by constructor <;> norm_num [halfRng]
  have hd : (1 : ℚ) < demoLane.length := by norm_num [demoLane]
  ⟨hso, hd, consecutive_candidates_spacing demoLane 0 1 halfRng [] hso hd⟩

/-- The lane driving the counterexample: straight along the x axis, length
10, with unit tangent everywhere. -/
def cexLane : LaneData :=
  { id := 2, parent := 2, isSidewalk := true, length := 10,
    sample := fun d => ((d, 0), ⟨1, 0⟩) }

/-- The random stream driving the counterexample: the second candidate draws a
large width and a mid-sized height; every other draw is the low end. -/
def cexRng : Rng := ⟨fun n => if n = 3 then 3 / 4 else if n = 4 then 1 / 4 else 0, 0⟩

/-- C7 counterexample: the claim that two consecutive candidates emitted along
the same lane never have intersecting polygons is false: this run emits
exactly two consecutive candidates on one straight lane, and the point
(7/2, -12) is strictly inside both rectangles, so every exact
polygon-intersection test must report them as intersecting. -/
theorem consecutive_candidates_overlap_counterexample :
    Option.map Prod.fst (placeHouses 3 cexLane 1 cexRng []) =
      some [[(-2, -16), (4, -16), (4, -10), (-2, -10)],
            [(3, -18), (15, -18), (15, -10), (3, -10)]] ∧
      strictlyInside [(-2, -16), (4, -16), (4, -10), (-2, -10)] (7 / 2, -12) = true ∧
      strictlyInside [(3, -18), (15, -18), (15, -10), (3, -10)] (7 / 2, -12) = true := by
  refine ⟨?_, ?_, ?_⟩
  · norm_num [placeHouses, cexLane, cexRng, Rng.genRange, rand_dist, mkHouse, projectAway,
      Angle.rotateNeg90, Polygon.rectangle, Polygon.center, Polygon.rotate, Polygon.translate]
  · norm_num [strictlyInside, List.range_succ]
  · norm_num [strictlyInside, List.range_succ]
